import Mathlib

/-!
Verification development for the workFlow repository.

The Graph Store is the Redux slice `flowSlice`: it owns the node sequence,
the edge sequence and the selected node, and exposes the reducers
`setNodes`, `setEdges`, `setSelectedNode`, `addNode`, `updateNodeLabel`
and `deleteNode`.  The Persistence Gateway is the `apiService` object of
`workFlow.jsx`: it serializes the `{nodes, edges}` snapshot to a JSON
blob stored under a single key and restores it, rejecting when no blob
was ever stored.
-/

namespace WorkFlow

/-- 2-D position of a node, `position: { x, y }` in the source. -/
structure Pos where
  x : Int
  y : Int
deriving DecidableEq, Repr

/-- A node record: `{ id, type, data: { label }, position }` in the source. -/
structure Node where
  id : String
  type : String
  label : String
  position : Pos
deriving DecidableEq, Repr

/-- An edge record: `{ id, source, target, type }` in the source. -/
structure Edge where
  id : String
  source : String
  target : String
  type : String
deriving DecidableEq, Repr

/-- A reducer payload that may or may not be an array, as observed by the
`Array.isArray(action.payload)` test in `setNodes` / `setEdges`. -/
inductive Payload (α : Type) where
  | arr (items : List α)
  | nonArray
deriving DecidableEq, Repr

/-- The coercion `Array.isArray(p) ? p : []`. -/
def Payload.coerce {α : Type} : Payload α → List α
  | .arr items => items
  | .nonArray => []

/-- The state of the `flow` slice: `{ nodes, edges, selectedNode }`. -/
structure FlowState where
  nodes : List Node
  edges : List Edge
  selectedNode : Option Node
deriving DecidableEq, Repr

/-- The `initialNodes` value of the slice. -/
def initialNodes : List Node :=
  [ { id := "1", type := "payment", label := "Payment of $300", position := ⟨250, 50⟩ },
    { id := "2", type := "location", label := "America", position := ⟨250, 150⟩ },
    { id := "3", type := "gateway", label := "RazorPay", position := ⟨250, 250⟩ } ]

/-- The `initialEdges` value of the slice. -/
def initialEdges : List Edge :=
  [ { id := "e1-2", source := "1", target := "2", type := "custom" },
    { id := "e2-3", source := "2", target := "3", type := "custom" } ]

/-- The `initialState` value of the slice. -/
def initialState : FlowState :=
  { nodes := initialNodes, edges := initialEdges, selectedNode := none }

/-- The first seed node, used as a concrete input. -/
def node1 : Node :=
  { id := "1", type := "payment", label := "Payment of $300",
    position := ⟨250, 50⟩ }

/-- An edge whose endpoints match no seed node, used as a concrete
input. -/
def edge9 : Edge :=
  { id := "e9", source := "9", target := "9", type := "custom" }

/-- Reducer `setNodes`:
`state.nodes = Array.isArray(action.payload) ? action.payload : []`. -/
def setNodes (s : FlowState) (payload : Payload Node) : FlowState :=
  { s with nodes := payload.coerce }

/-- Reducer `setEdges`:
`state.edges = Array.isArray(action.payload) ? action.payload : []`. -/
def setEdges (s : FlowState) (payload : Payload Edge) : FlowState :=
  { s with edges := payload.coerce }

/-- Reducer `setSelectedNode`: `state.selectedNode = action.payload`. -/
def setSelectedNode (s : FlowState) (payload : Option Node) : FlowState :=
  { s with selectedNode := payload }

/-- Reducer `addNode`: `state.nodes = [...state.nodes, action.payload]`. -/
def addNode (s : FlowState) (n : Node) : FlowState :=
  { s with nodes := s.nodes ++ [n] }

/-- The per-node update performed inside `updateNodeLabel`'s `map`:
a node whose `id` matches gets its `data.label` replaced, any other
node is returned unchanged. -/
def relabel (nodeId newLabel : String) (node : Node) : Node :=
  if node.id == nodeId then { node with label := newLabel } else node

/-- Reducer `updateNodeLabel`: maps `relabel` over the node sequence, then,
when the selected node carries the same id, re-reads the selection from the
new node sequence with `find` (which yields `undefined`, i.e. `none`, when
nothing matches). -/
def updateNodeLabel (s : FlowState) (nodeId newLabel : String) : FlowState :=
  { s with
    nodes := s.nodes.map (relabel nodeId newLabel),
    selectedNode :=
      match s.selectedNode with
      | some sel =>
          if sel.id == nodeId then
            (s.nodes.map (relabel nodeId newLabel)).find?
              (fun node => node.id == nodeId)
          else s.selectedNode
      | none => none }

/-- Reducer `deleteNode`: filters the node out of `nodes`, filters every
edge whose `source` or `target` equals the deleted id out of `edges`, and
sets `selectedNode` to `null`. -/
def deleteNode (s : FlowState) (nodeId : String) : FlowState :=
  { nodes := s.nodes.filter (fun node => !(node.id == nodeId)),
    edges := s.edges.filter
      (fun edge => !(edge.source == nodeId) && !(edge.target == nodeId)),
    selectedNode := none }

/-- One dispatched action of the slice. -/
inductive Action where
  | setNodes (payload : Payload Node)
  | setEdges (payload : Payload Edge)
  | setSelectedNode (payload : Option Node)
  | addNode (n : Node)
  | updateNodeLabel (nodeId newLabel : String)
  | deleteNode (nodeId : String)
deriving DecidableEq, Repr

/-- The reducer dispatch: one action applied to a state. -/
def step (s : FlowState) : Action → FlowState
  | .setNodes payload => setNodes s payload
  | .setEdges payload => setEdges s payload
  | .setSelectedNode payload => setSelectedNode s payload
  | .addNode n => addNode s n
  | .updateNodeLabel nodeId newLabel => updateNodeLabel s nodeId newLabel
  | .deleteNode nodeId => deleteNode s nodeId

/-- The state reached from `initialState` by a sequence of dispatched
actions. -/
def run (acts : List Action) : FlowState :=
  acts.foldl step initialState

/-- The selection invariant claimed in the spec: a selected node's
identifier occurs in the node sequence. -/
def selectionConsistent (s : FlowState) : Bool :=
  match s.selectedNode with
  | none => true
  | some sel => s.nodes.any (fun node => node.id == sel.id)

/-- The edge invariant claimed in the spec: every edge's source and target
identifiers occur in the node sequence. -/
def edgesConsistent (s : FlowState) : Bool :=
  s.edges.all (fun edge =>
    (s.nodes.any (fun node => node.id == edge.source)) &&
    (s.nodes.any (fun node => node.id == edge.target)))

/-- A caller-level operation, as the `FlowChart` component issues them:
`loadSnapshot` is the load handler's `setNodes`; `setEdges`;
`setSelectedNode(null)` triple dispatched as one logical unit;
`selectNode` / `clearSelection` are `setSelectedNode` with a node or
`null`; the remaining constructors dispatch a single reducer action. -/
inductive UIAction where
  | loadSnapshot (pn : Payload Node) (pe : Payload Edge)
  | selectNode (n : Node)
  | clearSelection
  | addNode (n : Node)
  | updateNodeLabel (nodeId newLabel : String)
  | deleteNode (nodeId : String)
  | replaceEdges (pe : Payload Edge)
deriving DecidableEq, Repr

/-- One caller-level operation applied to the store, each in terms of the
dispatched reducer actions. -/
def uiStep (s : FlowState) : UIAction → FlowState
  | .loadSnapshot pn pe => setSelectedNode (setEdges (setNodes s pn) pe) none
  | .selectNode n => setSelectedNode s (some n)
  | .clearSelection => setSelectedNode s none
  | .addNode n => addNode s n
  | .updateNodeLabel nodeId newLabel => updateNodeLabel s nodeId newLabel
  | .deleteNode nodeId => deleteNode s nodeId
  | .replaceEdges pe => setEdges s pe

/-- The state reached from `initialState` by a sequence of caller-level
operations. -/
def uiRun (acts : List UIAction) : FlowState :=
  acts.foldl uiStep initialState

/-- Caller discipline for the selection invariant: a node handed to
`setSelectedNode` must currently be in the node sequence (the component
only ever selects a clicked node, which is). -/
def selOK (s : FlowState) : UIAction → Bool
  | .selectNode n => s.nodes.any (fun node => node.id == n.id)
  | _ => true

/-- Predicate that `selOK` holds at every point along a trace. -/
def selTraceOK : FlowState → List UIAction → Bool
  | _, [] => true
  | s, a :: rest => selOK s a && selTraceOK (uiStep s a) rest

/-- Caller discipline for the edge invariant: edges handed to the store
must reference nodes of the sequence they will coexist with. -/
def edgeOK (s : FlowState) : UIAction → Bool
  | .loadSnapshot pn pe =>
      pe.coerce.all (fun edge =>
        (pn.coerce.any (fun node => node.id == edge.source)) &&
        (pn.coerce.any (fun node => node.id == edge.target)))
  | .replaceEdges pe =>
      pe.coerce.all (fun edge =>
        (s.nodes.any (fun node => node.id == edge.source)) &&
        (s.nodes.any (fun node => node.id == edge.target)))
  | _ => true

/-- Predicate that `edgeOK` holds at every point along a trace. -/
def edgeTraceOK : FlowState → List UIAction → Bool
  | _, [] => true
  | s, a :: rest => edgeOK s a && edgeTraceOK (uiStep s a) rest

/-- The JSON value shape the Persistence Gateway serializes to
(`JSON.stringify` / `JSON.parse` round a plain record tree). -/
inductive Json where
  | str (s : String)
  | num (n : Int)
  | arr (items : List Json)
  | obj (fields : List (String × Json))

/-- Field access on a parsed JSON object. -/
def Json.getField : Json → String → Option Json
  | .obj fields, key => fields.lookup key
  | _, _ => none

/-- A JSON value read as a string. -/
def Json.asStr : Json → Option String
  | .str s => some s
  | _ => none

/-- A JSON value read as a number. -/
def Json.asNum : Json → Option Int
  | .num n => some n
  | _ => none

/-- A JSON value read as an array. -/
def Json.asArr : Json → Option (List Json)
  | .arr items => some items
  | _ => none

/-- Serialization of one node record, field for field. -/
def encodeNode (n : Node) : Json :=
  .obj [("id", .str n.id), ("type", .str n.type),
        ("data", .obj [("label", .str n.label)]),
        ("position", .obj [("x", .num n.position.x), ("y", .num n.position.y)])]

/-- Deserialization of one node record. -/
def decodeNode (j : Json) : Option Node := do
  let idJ ← j.getField "id"
  let id ← idJ.asStr
  let typeJ ← j.getField "type"
  let type ← typeJ.asStr
  let dataJ ← j.getField "data"
  let labelJ ← dataJ.getField "label"
  let label ← labelJ.asStr
  let posJ ← j.getField "position"
  let xJ ← posJ.getField "x"
  let x ← xJ.asNum
  let yJ ← posJ.getField "y"
  let y ← yJ.asNum
  pure { id := id, type := type, label := label, position := ⟨x, y⟩ }

/-- Serialization of one edge record, field for field. -/
def encodeEdge (e : Edge) : Json :=
  .obj [("id", .str e.id), ("source", .str e.source),
        ("target", .str e.target), ("type", .str e.type)]

/-- Deserialization of one edge record. -/
def decodeEdge (j : Json) : Option Edge := do
  let idJ ← j.getField "id"
  let id ← idJ.asStr
  let sourceJ ← j.getField "source"
  let source ← sourceJ.asStr
  let targetJ ← j.getField "target"
  let target ← targetJ.asStr
  let typeJ ← j.getField "type"
  let type ← typeJ.asStr
  pure { id := id, source := source, target := target, type := type }

/-- Deserialization of every element of a JSON array, failing if any
element fails. -/
def decodeList {α : Type} (f : Json → Option α) : List Json → Option (List α)
  | [] => some []
  | j :: rest =>
      match f j, decodeList f rest with
      | some a, some as => some (a :: as)
      | _, _ => none

/-- The persisted pair `{ nodes, edges }` handed to `saveWorkflow`. -/
structure Snapshot where
  nodes : List Node
  edges : List Edge
deriving DecidableEq, Repr

/-- Serialization of the persisted record `{ nodes, edges }`. -/
def encodeSnapshot (s : Snapshot) : Json :=
  .obj [("nodes", .arr (s.nodes.map encodeNode)),
        ("edges", .arr (s.edges.map encodeEdge))]

/-- Deserialization of the persisted record. -/
def decodeSnapshot (j : Json) : Option Snapshot := do
  let nodesJ ← j.getField "nodes"
  let nodesArr ← nodesJ.asArr
  let edgesJ ← j.getField "edges"
  let edgesArr ← edgesJ.asArr
  let nodes ← decodeList decodeNode nodesArr
  let edges ← decodeList decodeEdge edgesArr
  pure { nodes := nodes, edges := edges }

/-- The function `apiService.saveWorkflow`: stores the serialized snapshot under the
single key, overwriting any prior blob; the backing store is the
`Option Json` argument. -/
def apiSaveWorkflow (data : Snapshot) (_storage : Option Json) : Option Json :=
  some (encodeSnapshot data)

/-- Outcome of `apiService.loadWorkflow`: the resolved snapshot, the
rejection when no blob was ever stored, or a parse failure of the blob. -/
inductive LoadResult where
  | ok (data : Snapshot)
  | notFound
  | parseFailure
deriving DecidableEq

/-- The function `apiService.loadWorkflow`: rejects with the not-found outcome when
the key holds nothing, otherwise parses the stored blob. -/
def apiLoadWorkflow (storage : Option Json) : LoadResult :=
  match storage with
  | none => .notFound
  | some j =>
      match decodeSnapshot j with
      | some snap => .ok snap
      | none => .parseFailure

/-- The component-level state the `loadWorkflow` handler touches: the
Redux slice, the persistence key's content, and the status banner. -/
structure AppState where
  flow : FlowState
  storage : Option Json
  statusMessage : Option String

/-- The `loadWorkflow` click handler: on success dispatches
`setNodes(data.nodes)`, `setEdges(data.edges)`, `setSelectedNode(null)`
and shows a success banner; any failure lands in the `catch`, which only
shows the not-found banner and leaves the slice untouched. -/
def loadWorkflowHandler (a : AppState) : AppState :=
  match apiLoadWorkflow a.storage with
  | .ok data =>
      { a with
        flow := setSelectedNode
          (setEdges (setNodes a.flow (.arr data.nodes)) (.arr data.edges)) none,
        statusMessage := some "Workflow loaded successfully." }
  | .notFound => { a with statusMessage := some "No saved workflow found." }
  | .parseFailure => { a with statusMessage := some "No saved workflow found." }

/-- A component state in which nothing was ever saved, used as a
concrete input. -/
def freshApp : AppState :=
  { flow := initialState, storage := none, statusMessage := none }

/-! ## Helper lemmas -/

theorem relabel_id (nodeId newLabel : String) (node : Node) :
    (relabel nodeId newLabel node).id = node.id := by
  unfold relabel; split <;> rfl

theorem relabel_type (nodeId newLabel : String) (node : Node) :
    (relabel nodeId newLabel node).type = node.type := by
  unfold relabel; split <;> rfl

theorem relabel_position (nodeId newLabel : String) (node : Node) :
    (relabel nodeId newLabel node).position = node.position := by
  unfold relabel; split <;> rfl

theorem relabel_label (nodeId newLabel : String) (node : Node) :
    (relabel nodeId newLabel node).label
      = if node.id = nodeId then newLabel else node.label := by
  unfold relabel
  by_cases h : node.id = nodeId
  · simp [h]
  · simp [h]

theorem relabel_of_ne (nodeId newLabel : String) (node : Node)
    (h : node.id ≠ nodeId) : relabel nodeId newLabel node = node := by
  simp [relabel, h]

theorem map_id_of_forall {α : Type} (f : α → α) :
    ∀ l : List α, (∀ a ∈ l, f a = a) → l.map f = l
  | [], _ => rfl
  | a :: l, h => by
      have h1 := h a (List.mem_cons_self a l)
      have h2 : ∀ b ∈ l, f b = b := fun b hb => h b (List.mem_cons_of_mem a hb)
      simp [h1, map_id_of_forall f l h2]

theorem updateNodeLabel_nodes (s : FlowState) (x L : String) :
    (updateNodeLabel s x L).nodes = s.nodes.map (relabel x L) := rfl

theorem updateNodeLabel_length (s : FlowState) (x L : String) :
    (updateNodeLabel s x L).nodes.length = s.nodes.length := by
  simp [updateNodeLabel]

theorem updateNodeLabel_selectedNode_of_match (s : FlowState) (x L : String)
    (sel : Node) (hsel : s.selectedNode = some sel) (hid : sel.id = x) :
    (updateNodeLabel s x L).selectedNode
      = (s.nodes.map (relabel x L)).find? (fun node => node.id == x) := by
  simp only [updateNodeLabel, hsel]
  simp [hid]

/-! ## C1: deleteNode -/

/-- C1: for every store state and identifier `x`, `deleteNode x` removes
exactly the nodes whose identifier equals `x`, removes exactly the edges
whose source or target equals `x` (edges referencing only other nodes
survive unchanged), and sets the selection to empty unconditionally. -/
theorem deleteNode_spec (s : FlowState) (x : String) :
    (∀ n : Node, n ∈ (deleteNode s x).nodes ↔ n ∈ s.nodes ∧ n.id ≠ x) ∧
    (∀ e : Edge, e ∈ (deleteNode s x).edges
        ↔ e ∈ s.edges ∧ e.source ≠ x ∧ e.target ≠ x) ∧
    (deleteNode s x).selectedNode = none := by
  refine ⟨fun n => ?_, fun e => ?_, rfl⟩
  · simp [deleteNode, List.mem_filter]
  · simp [deleteNode, List.mem_filter, and_assoc]

/-- Witness for C1 at the initial state and identifier `"2"`. -/
theorem deleteNode_spec_witness :
    (deleteNode initialState "2").selectedNode = none :=
  (deleteNode_spec initialState "2").2.2

/-! ## C8: defensive replace operations -/

/-- C8: `setNodes` / `setEdges` are total; an array payload is stored
as-is and a non-array payload degrades to the empty sequence. -/
theorem setNodes_setEdges_defensive (s : FlowState) :
    (∀ l : List Node, (setNodes s (.arr l)).nodes = l) ∧
    ((setNodes s .nonArray).nodes = []) ∧
    (∀ l : List Edge, (setEdges s (.arr l)).edges = l) ∧
    ((setEdges s .nonArray).edges = []) :=
  ⟨fun _ => rfl, rfl, fun _ => rfl, rfl⟩

/-- Witness for C8 at the initial state. -/
theorem setNodes_setEdges_defensive_witness :
    (setNodes initialState .nonArray).nodes = [] :=
  (setNodes_setEdges_defensive initialState).2.1

/-! ## C9: deleteNode with an absent identifier -/

/-- C9 counterexample: after `setNodes(nonArray)` the node sequence is
empty, so `"1"` is not the identifier of any node, yet
`deleteNode("1")` still changes the edge sequence (it removes the
dangling edge `e1-2`). -/
theorem deleteNode_absent_counterexample :
    ((run [.setNodes .nonArray]).nodes.all (fun n => !(n.id == "1")) = true) ∧
    (deleteNode (run [.setNodes .nonArray]) "1").edges
      ≠ (run [.setNodes .nonArray]).edges := by
  decide

/-- C9 amended: if no node carries identifier `x` and additionally no
edge references `x` as source or target, then `deleteNode x` leaves the
node and edge sequences unchanged and still sets the selection to empty.
(Without the edge-side condition the code removes dangling edges that
mention `x`.) -/
theorem deleteNode_absent_spec (s : FlowState) (x : String)
    (hn : ∀ n ∈ s.nodes, n.id ≠ x)
    (he : ∀ e ∈ s.edges, e.source ≠ x ∧ e.target ≠ x) :
    (deleteNode s x).nodes = s.nodes ∧ (deleteNode s x).edges = s.edges ∧
    (deleteNode s x).selectedNode = none := by
  refine ⟨?_, ?_, rfl⟩
  · apply List.filter_eq_self.2
    intro n hnmem
    simpa using hn n hnmem
  · apply List.filter_eq_self.2
    intro e hemem
    have h := he e hemem
    simp [h.1, h.2]

/-- Witness for C9's amended theorem at the initial state and the absent
identifier `"99"`. -/
theorem deleteNode_absent_spec_witness :
    (deleteNode initialState "99").nodes = initialState.nodes ∧
    (deleteNode initialState "99").edges = initialState.edges ∧
    (deleteNode initialState "99").selectedNode = none :=
  deleteNode_absent_spec initialState "99" (by decide) (by decide)

/-! ## C10: stale selection on update of an absent node -/

/-- C10: when the selected node's identifier equals `x` but no node in
the sequence carries `x`, `updateNodeLabel x L` clears the selection to
none (the `find` over the new sequence yields nothing). -/
theorem updateNodeLabel_stale_selection_cleared (s : FlowState)
    (x newLabel : String) (sel : Node)
    (hsel : s.selectedNode = some sel) (hid : sel.id = x)
    (habsent : ∀ n ∈ s.nodes, n.id ≠ x) :
    (updateNodeLabel s x newLabel).selectedNode = none := by
  rw [updateNodeLabel_selectedNode_of_match s x newLabel sel hsel hid]
  rw [List.find?_eq_none]
  intro n hn
  rcases List.mem_map.1 hn with ⟨m, hm, rfl⟩
  simp only [relabel_id, beq_iff_eq]
  exact habsent m hm

/-- Witness for C10: a state whose selection carries the absent
identifier `"9"`. -/
theorem updateNodeLabel_stale_selection_cleared_witness :
    (updateNodeLabel
      { nodes := initialNodes, edges := initialEdges,
        selectedNode := some
          { id := "9", type := "payment", label := "ghost", position := ⟨0, 0⟩ } }
      "9" "L2").selectedNode = none :=
  updateNodeLabel_stale_selection_cleared
    { nodes := initialNodes, edges := initialEdges,
      selectedNode := some
        { id := "9", type := "payment", label := "ghost", position := ⟨0, 0⟩ } }
    "9" "L2"
    { id := "9", type := "payment", label := "ghost", position := ⟨0, 0⟩ }
    rfl rfl (by decide)

/-! ## C4: updateNodeLabel on the node sequence -/

/-- C4: `updateNodeLabel x L` keeps the node sequence's length, keeps
every node's identifier, kind and position, gives the node whose
identifier equals `x` the label `L` while every other node keeps its
label, and leaves the sequence unchanged (with no error) when no node
carries `x`. -/
theorem updateNodeLabel_spec (s : FlowState) (x L : String) :
    ((updateNodeLabel s x L).nodes.length = s.nodes.length) ∧
    (∀ i : Fin s.nodes.length,
      ((updateNodeLabel s x L).nodes.get
          (Fin.cast (updateNodeLabel_length s x L).symm i)).id
        = (s.nodes.get i).id ∧
      ((updateNodeLabel s x L).nodes.get
          (Fin.cast (updateNodeLabel_length s x L).symm i)).type
        = (s.nodes.get i).type ∧
      ((updateNodeLabel s x L).nodes.get
          (Fin.cast (updateNodeLabel_length s x L).symm i)).position
        = (s.nodes.get i).position ∧
      ((updateNodeLabel s x L).nodes.get
          (Fin.cast (updateNodeLabel_length s x L).symm i)).label
        = (if (s.nodes.get i).id = x then L else (s.nodes.get i).label)) ∧
    ((∀ n ∈ s.nodes, n.id ≠ x) → (updateNodeLabel s x L).nodes = s.nodes) := by
  refine ⟨updateNodeLabel_length s x L, fun i => ?_, fun hall => ?_⟩
  · have hget : (updateNodeLabel s x L).nodes.get
        (Fin.cast (updateNodeLabel_length s x L).symm i)
        = relabel x L (s.nodes.get i) := by
      rcases i with ⟨iv, ih⟩
      simp [updateNodeLabel_nodes, List.get_eq_getElem]
    rw [hget]
    exact ⟨relabel_id x L _, relabel_type x L _, relabel_position x L _,
      relabel_label x L _⟩
  · rw [updateNodeLabel_nodes]
    exact map_id_of_forall _ s.nodes
      (fun n hn => relabel_of_ne x L n (hall n hn))

/-- Witness for C4 exercising the absent-identifier clause at the
initial state. -/
theorem updateNodeLabel_spec_witness :
    (updateNodeLabel initialState "9" "X").nodes = initialState.nodes :=
  (updateNodeLabel_spec initialState "9" "X").2.2 (by decide)

/-! ## C5: updateNodeLabel refreshes a matching selection -/

/-- C5: when a node with identifier `x` is present and the selection
carries identifier `x`, `updateNodeLabel x L` points the selection at an
updated record: its label is `L`, its identifier is `x`, and it is a
member of the new node sequence (never a stale copy). -/
theorem updateNodeLabel_selection_refresh (s : FlowState) (x L : String)
    (sel : Node) (hsel : s.selectedNode = some sel) (hid : sel.id = x)
    (hpresent : ∃ n ∈ s.nodes, n.id = x) :
    ∃ n', (updateNodeLabel s x L).selectedNode = some n' ∧
      n'.label = L ∧ n'.id = x ∧ n' ∈ (updateNodeLabel s x L).nodes := by
  have hfind : ((s.nodes.map (relabel x L)).find?
      (fun node => node.id == x)).isSome := by
    rw [List.find?_isSome]
    rcases hpresent with ⟨n, hn, hnx⟩
    exact ⟨relabel x L n, List.mem_map_of_mem _ hn, by simp [relabel_id, hnx]⟩
  rcases Option.isSome_iff_exists.1 hfind with ⟨n', hn'⟩
  have hmem : n' ∈ s.nodes.map (relabel x L) := List.mem_of_find?_eq_some hn'
  have hpn' := List.find?_some hn'
  have hidn' : n'.id = x := by simpa using hpn'
  refine ⟨n', ?_, ?_, hidn', ?_⟩
  · rw [updateNodeLabel_selectedNode_of_match s x L sel hsel hid]
    exact hn'
  · rcases List.mem_map.1 hmem with ⟨m, hm, heq⟩
    have hmx : m.id = x := by rw [← heq] at hidn'; simpa [relabel_id] using hidn'
    rw [← heq, relabel_label, if_pos hmx]
  · rw [updateNodeLabel_nodes]
    exact hmem

/-- Witness for C5: the scenario of the spec, node `"1"` selected and
relabelled to `"Payment of $999"`. -/
theorem updateNodeLabel_selection_refresh_witness :
    ∃ n', (updateNodeLabel
        { nodes := initialNodes, edges := initialEdges,
          selectedNode := some
            { id := "1", type := "payment", label := "Payment of $300",
              position := ⟨250, 50⟩ } }
        "1" "Payment of $999").selectedNode = some n' ∧
      n'.label = "Payment of $999" ∧ n'.id = "1" ∧
      n' ∈ (updateNodeLabel
        { nodes := initialNodes, edges := initialEdges,
          selectedNode := some
            { id := "1", type := "payment", label := "Payment of $300",
              position := ⟨250, 50⟩ } }
        "1" "Payment of $999").nodes :=
  updateNodeLabel_selection_refresh
    { nodes := initialNodes, edges := initialEdges,
      selectedNode := some
        { id := "1", type := "payment", label := "Payment of $300",
          position := ⟨250, 50⟩ } }
    "1" "Payment of $999"
    { id := "1", type := "payment", label := "Payment of $300",
      position := ⟨250, 50⟩ }
    rfl rfl (by decide)

/-! ## Selection and edge invariants: helper lemmas -/

theorem selectionConsistent_none (s : FlowState) (h : s.selectedNode = none) :
    selectionConsistent s = true := by
  unfold selectionConsistent
  rw [h]

theorem selectionConsistent_of_mem (s : FlowState) (sel : Node)
    (hsel : s.selectedNode = some sel) (h : ∃ m ∈ s.nodes, m.id = sel.id) :
    selectionConsistent s = true := by
  unfold selectionConsistent
  rw [hsel]
  simpa [List.any_eq_true] using h

theorem exists_id_of_selectionConsistent (s : FlowState) (sel : Node)
    (hsel : s.selectedNode = some sel) (h : selectionConsistent s = true) :
    ∃ m ∈ s.nodes, m.id = sel.id := by
  unfold selectionConsistent at h
  rw [hsel] at h
  simpa [List.any_eq_true] using h

theorem updateNodeLabel_selectedNode_of_nomatch (s : FlowState) (x L : String)
    (sel : Node) (hsel : s.selectedNode = some sel) (hid : sel.id ≠ x) :
    (updateNodeLabel s x L).selectedNode = some sel := by
  simp only [updateNodeLabel, hsel]
  simp [hid]

theorem updateNodeLabel_selectedNode_of_none (s : FlowState) (x L : String)
    (hsel : s.selectedNode = none) :
    (updateNodeLabel s x L).selectedNode = none := by
  simp only [updateNodeLabel, hsel]

theorem selOK_preserves (s : FlowState) (a : UIAction)
    (hs : selectionConsistent s = true) (ha : selOK s a = true) :
    selectionConsistent (uiStep s a) = true := by
  cases a with
  | loadSnapshot pn pe => exact selectionConsistent_none _ rfl
  | selectNode n =>
      apply selectionConsistent_of_mem _ n rfl
      simpa [selOK, List.any_eq_true] using ha
  | clearSelection => exact selectionConsistent_none _ rfl
  | addNode n =>
      cases hsel : s.selectedNode with
      | none => exact selectionConsistent_none _ hsel
      | some sel =>
          rcases exists_id_of_selectionConsistent s sel hsel hs with ⟨m, hm, hmid⟩
          exact selectionConsistent_of_mem _ sel hsel
            ⟨m, List.mem_append_left _ hm, hmid⟩
  | updateNodeLabel x L =>
      show selectionConsistent (updateNodeLabel s x L) = true
      cases hsel : s.selectedNode with
      | none =>
          exact selectionConsistent_none _
            (updateNodeLabel_selectedNode_of_none s x L hsel)
      | some sel =>
          by_cases hx : sel.id = x
          · have h2 := updateNodeLabel_selectedNode_of_match s x L sel hsel hx
            cases hfind : (s.nodes.map (relabel x L)).find?
                (fun node => node.id == x) with
            | none => exact selectionConsistent_none _ (h2.trans hfind)
            | some n' =>
                have hmem := List.mem_of_find?_eq_some hfind
                refine selectionConsistent_of_mem _ n' (h2.trans hfind) ?_
                exact ⟨n', by rw [updateNodeLabel_nodes]; exact hmem, rfl⟩
          · have h2 := updateNodeLabel_selectedNode_of_nomatch s x L sel hsel hx
            rcases exists_id_of_selectionConsistent s sel hsel hs with ⟨m, hm, hmid⟩
            refine selectionConsistent_of_mem _ sel h2 ?_
            refine ⟨relabel x L m, ?_, ?_⟩
            · rw [updateNodeLabel_nodes]
              exact List.mem_map_of_mem _ hm
            · rw [relabel_id]
              exact hmid
  | deleteNode nodeId => exact selectionConsistent_none _ rfl
  | replaceEdges pe => exact hs

theorem selTraceOK_preserves (tr : List UIAction) :
    ∀ s : FlowState, selectionConsistent s = true → selTraceOK s tr = true →
      selectionConsistent (tr.foldl uiStep s) = true := by
  induction tr with
  | nil => intro s hs _; simpa using hs
  | cons a rest ih =>
      intro s hs htr
      simp only [selTraceOK, Bool.and_eq_true] at htr
      exact ih (uiStep s a) (selOK_preserves s a hs htr.1) htr.2

theorem edgesConsistent_iff (s : FlowState) :
    edgesConsistent s = true ↔
      ∀ e ∈ s.edges, (∃ m ∈ s.nodes, m.id = e.source) ∧
        (∃ m ∈ s.nodes, m.id = e.target) := by
  unfold edgesConsistent
  simp [List.all_eq_true, List.any_eq_true]

theorem edgeOK_preserves (s : FlowState) (a : UIAction)
    (hs : edgesConsistent s = true) (ha : edgeOK s a = true) :
    edgesConsistent (uiStep s a) = true := by
  cases a with
  | loadSnapshot pn pe =>
      rw [edgesConsistent_iff]
      intro e he
      simp only [edgeOK, List.all_eq_true] at ha
      have h := ha e he
      simpa [List.any_eq_true, Bool.and_eq_true] using h
  | selectNode n => exact hs
  | clearSelection => exact hs
  | addNode n =>
      rw [edgesConsistent_iff]
      intro e he
      have h := (edgesConsistent_iff s).1 hs e he
      constructor
      · rcases h.1 with ⟨m, hm, hmid⟩
        exact ⟨m, List.mem_append_left _ hm, hmid⟩
      · rcases h.2 with ⟨m, hm, hmid⟩
        exact ⟨m, List.mem_append_left _ hm, hmid⟩
  | updateNodeLabel x L =>
      show edgesConsistent (updateNodeLabel s x L) = true
      rw [edgesConsistent_iff]
      intro e he
      have h := (edgesConsistent_iff s).1 hs e he
      constructor
      · rcases h.1 with ⟨m, hm, hmid⟩
        refine ⟨relabel x L m, ?_, ?_⟩
        · rw [updateNodeLabel_nodes]
          exact List.mem_map_of_mem _ hm
        · rw [relabel_id]
          exact hmid
      · rcases h.2 with ⟨m, hm, hmid⟩
        refine ⟨relabel x L m, ?_, ?_⟩
        · rw [updateNodeLabel_nodes]
          exact List.mem_map_of_mem _ hm
        · rw [relabel_id]
          exact hmid
  | deleteNode nodeId =>
      rw [edgesConsistent_iff]
      intro e he
      have he' := List.mem_filter.1 he
      have hends : e.source ≠ nodeId ∧ e.target ≠ nodeId := by
        simpa [Bool.and_eq_true] using he'.2
      have h := (edgesConsistent_iff s).1 hs e he'.1
      constructor
      · rcases h.1 with ⟨m, hm, hmid⟩
        refine ⟨m, List.mem_filter.2 ⟨hm, ?_⟩, hmid⟩
        simp [hmid, hends.1]
      · rcases h.2 with ⟨m, hm, hmid⟩
        refine ⟨m, List.mem_filter.2 ⟨hm, ?_⟩, hmid⟩
        simp [hmid, hends.2]
  | replaceEdges pe =>
      rw [edgesConsistent_iff]
      intro e he
      simp only [edgeOK, List.all_eq_true] at ha
      have h := ha e he
      simpa [List.any_eq_true, Bool.and_eq_true] using h

theorem edgeTraceOK_preserves (tr : List UIAction) :
    ∀ s : FlowState, edgesConsistent s = true → edgeTraceOK s tr = true →
      edgesConsistent (tr.foldl uiStep s) = true := by
  induction tr with
  | nil => intro s hs _; simpa using hs
  | cons a rest ih =>
      intro s hs htr
      simp only [edgeTraceOK, Bool.and_eq_true] at htr
      exact ih (uiStep s a) (edgeOK_preserves s a hs htr.1) htr.2

/-! ## C2: selection invariant -/

/-- C2 counterexample: select initial node `"1"`, then bulk-replace the
node sequence with the empty list. The reducer `setNodes` does not touch
the selection, so the selection still holds node `"1"` while no node
with that identifier exists: the claimed invariant fails and the claimed
clearing on bulk replacement does not happen. -/
theorem selection_invariant_counterexample :
    selectionConsistent
      (run [.setSelectedNode (some node1), .setNodes (.arr [])]) = false ∧
    (run [.setSelectedNode (some node1),
      .setNodes (.arr [])]).selectedNode ≠ none := by
  decide

/-- C2 amended: the reducers alone do not maintain the selection
invariant (`setSelectedNode` stores any payload unchecked and `setNodes`
leaves the selection untouched). The invariant does hold in every state
reachable by caller-level operations under the component's discipline:
every selected node is a member of the current node sequence when
selected, and every bulk replacement is the load triple that dispatches
`setSelectedNode(null)` in the same logical unit. `deleteNode` and
`updateNodeLabel` preserve the invariant unconditionally. -/
theorem selection_invariant_disciplined (tr : List UIAction)
    (h : selTraceOK initialState tr = true) :
    selectionConsistent (uiRun tr) = true :=
  selTraceOK_preserves tr initialState (by decide) h

/-- Witness for C2's amended theorem: select node `"1"`, then delete
node `"2"`. -/
theorem selection_invariant_disciplined_witness :
    selTraceOK initialState [.selectNode node1, .deleteNode "2"] = true ∧
    selectionConsistent (uiRun [.selectNode node1, .deleteNode "2"]) = true :=
  ⟨by decide,
    selection_invariant_disciplined [.selectNode node1, .deleteNode "2"]
      (by decide)⟩

/-! ## C3: edge referential integrity -/

/-- C3 counterexample: a single `setEdges` dispatch stores an edge whose
source and target `"9"` match no node, so the reachable state violates
the claimed referential integrity outside any `deleteNode` step. -/
theorem edge_invariant_counterexample :
    edgesConsistent (run [.setEdges (.arr [edge9])]) = false := by
  decide

/-- C3 amended: the reducers alone do not maintain referential
integrity (`setEdges` stores any array unchecked and `setNodes` does not
prune edges). The invariant does hold in every state reachable by
caller-level operations whose edge payloads reference present nodes:
loaded snapshots must be internally consistent and replaced edge
sequences must reference nodes of the current sequence. `deleteNode`
preserves the invariant, removing the dangling edges atomically in the
same step, and `addNode` / `updateNodeLabel` preserve it as well. -/
theorem edge_invariant_disciplined (tr : List UIAction)
    (h : edgeTraceOK initialState tr = true) :
    edgesConsistent (uiRun tr) = true :=
  edgeTraceOK_preserves tr initialState (by decide) h

/-- Witness for C3's amended theorem: delete node `"2"`, which removes
both incident edges in the same step. -/
theorem edge_invariant_disciplined_witness :
    edgeTraceOK initialState [.deleteNode "2"] = true ∧
    edgesConsistent (uiRun [.deleteNode "2"]) = true :=
  ⟨by decide, edge_invariant_disciplined [.deleteNode "2"] (by decide)⟩

/-! ## C6: persistence round trip -/

theorem decodeNode_encodeNode (n : Node) :
    decodeNode (encodeNode n) = some n := rfl

theorem decodeEdge_encodeEdge (e : Edge) :
    decodeEdge (encodeEdge e) = some e := rfl

theorem decodeList_map {α : Type} (f : Json → Option α) (g : α → Json)
    (hfg : ∀ a, f (g a) = some a) :
    ∀ l : List α, decodeList f (l.map g) = some l
  | [] => rfl
  | a :: l => by
      simp [decodeList, hfg a, decodeList_map f g hfg l]

theorem decodeSnapshot_encodeSnapshot (s : Snapshot) :
    decodeSnapshot (encodeSnapshot s) = some s := by
  have hn := decodeList_map decodeNode encodeNode decodeNode_encodeNode s.nodes
  have he := decodeList_map decodeEdge encodeEdge decodeEdge_encodeEdge s.edges
  simp [decodeSnapshot, encodeSnapshot, Json.getField, Json.asArr, hn, he,
    List.lookup]

/-- C6: for every snapshot and every prior storage content, saving the
snapshot and then loading succeeds and returns a snapshot equal by value
to the one saved: no identifier, kind, label, position or edge endpoint
is lost by serialization. -/
theorem save_load_roundtrip (snapshot : Snapshot) (storage : Option Json) :
    apiLoadWorkflow (apiSaveWorkflow snapshot storage) = .ok snapshot := by
  simp [apiLoadWorkflow, apiSaveWorkflow, decodeSnapshot_encodeSnapshot]

/-- Witness for C6 at the seed snapshot over empty storage. -/
theorem save_load_roundtrip_witness :
    apiLoadWorkflow (apiSaveWorkflow ⟨initialNodes, initialEdges⟩ none)
      = .ok ⟨initialNodes, initialEdges⟩ :=
  save_load_roundtrip ⟨initialNodes, initialEdges⟩ none

/-! ## C7: load with no prior save -/

/-- C7: when nothing was ever saved, `loadWorkflow` gets the not-found
outcome, the handler surfaces it as the non-fatal status banner
`"No saved workflow found."`, and the store's nodes, edges and selection
are left untouched. -/
theorem load_without_save_spec (a : AppState) (h : a.storage = none) :
    apiLoadWorkflow a.storage = .notFound ∧
    (loadWorkflowHandler a).flow = a.flow ∧
    (loadWorkflowHandler a).statusMessage = some "No saved workflow found." := by
  have hapi : apiLoadWorkflow a.storage = .notFound := by rw [h]; rfl
  refine ⟨hapi, ?_, ?_⟩ <;> simp [loadWorkflowHandler, hapi]

/-- Witness for C7 at a component state that never saved. -/
theorem load_without_save_spec_witness :
    apiLoadWorkflow freshApp.storage = .notFound ∧
    (loadWorkflowHandler freshApp).flow = initialState ∧
    (loadWorkflowHandler freshApp).statusMessage
      = some "No saved workflow found." :=
  load_without_save_spec freshApp rfl

end WorkFlow
